import Mathlib

/-!
Verification of the buddy-app Secret Santa server (`src/server/index.js`).

We shallowly embed the server's algorithmic core:

* the `derangement` generator (Fisher–Yates shuffle, retried up to 2000
  times, throwing `Failed to create derangement` on exhaustion);
* the `POST /api/assign` handler (token validation, lazy one-shot
  generation of the whole assignment set, persisted lookup);
* the token registry inside `loadColleaguesWithTokens`;
* the `POST /admin/reset` handler for both storage backends.

The JavaScript array `arr` of `derangement` is represented by a function
`arr : Nat → Nat` giving the array contents at each index (indices ≥ n
are never touched and keep their initial value).  The random source
`Math.random` is abstracted as a choice function
`choices : Nat → Nat → Nat`, where `choices t i` stands for the value
`Math.floor(Math.random() * (i + 1))` drawn in attempt `t` at loop
position `i`; every behaviour of the real source satisfies
`choices t i ≤ i`.
-/

namespace BuddyApp

/-- A participant record of `colleagues.json` (`{name, birthday, anniversary}`). -/
structure Colleague where
  name : String
  birthday : String
  anniversary : String
  deriving DecidableEq, Repr

/-- A participant as returned by `loadColleaguesWithTokens`: the colleague
data together with the token taken from `state.tokens` (line 58). -/
structure Person where
  name : String
  birthday : String
  anniversary : String
  token : String
  deriving DecidableEq, Repr

/-- One persisted assignment row
`{token, giver, receiver_token, receiver}` (line 138 of the source). -/
structure Row where
  token : String
  giver : String
  receiver_token : String
  receiver : String
  deriving DecidableEq, Repr

/-- The destructuring swap `[arr[i], arr[j]] = [arr[j], arr[i]]` (line 66)
on the array contents `arr`. -/
def swapFun (arr : Nat → Nat) (i j : Nat) : Nat → Nat :=
  fun k => if k = i then arr j else if k = j then arr i else arr k

/-- The inner Fisher–Yates loop of `derangement`
(`for (let i = n - 1; i > 0; i--)`, lines 64–67): positions
`m, m - 1, …, 1` are swapped with the index chosen at that position.
`derangement` calls it with `m = n - 1`. -/
def fyPass (choice : Nat → Nat) (arr : Nat → Nat) : Nat → Nat → Nat
  | 0 => arr
  | m + 1 => fyPass choice (swapFun arr (m + 1) (choice (m + 1))) m

/-- The retry loop of `derangement` (`for (let tries = 0; tries < 2000; …)`,
lines 63–69), with the remaining number of attempts as fuel.  Each attempt
reshuffles the current array (the source never resets `arr` between
attempts), checks `arr.every((v, i) => v !== i)` and either returns a copy
of the array or retries; exhaustion throws (line 70). -/
def derangementLoop (n : Nat) (arr : Nat → Nat) (choices : Nat → Nat → Nat) :
    Nat → Except String (List Nat)
  | 0 => Except.error "Failed to create derangement"
  | fuel + 1 =>
    let arr2 := fyPass (choices 0) arr (n - 1)
    if (List.range n).all (fun i => arr2 i != i) then
      Except.ok ((List.range n).map arr2)
    else
      derangementLoop n arr2 (fun t => choices (t + 1)) fuel

/-- `derangement(n)` (lines 61–71): the array starts as `[0, …, n-1]` and at
most 2000 shuffle-and-check attempts are made. -/
def derangement (n : Nat) (choices : Nat → Nat → Nat) : Except String (List Nat) :=
  derangementLoop n (fun i => i) choices 2000

/-- A possible behaviour of `Math.floor(Math.random() * (i + 1))`: the
chosen index always lies between `0` and `i`. -/
def ValidChoices (choices : Nat → Nat → Nat) : Prop :=
  ∀ t i, choices t i ≤ i

/-- `getByToken` in the local-JSON backend (lines 109–110):
`list.find(r => r.token === token) || null`. -/
def getByToken (store : List Row) (token : String) : Option Row :=
  store.find? (fun r => r.token == token)

/-- Out-of-bounds placeholder for the list indexing `people[i]`; the source
only ever indexes in bounds, so this value is never observed. -/
def defaultPerson : Person := ⟨"", "", "", ""⟩

/-- The row-building loop of `POST /api/assign` (lines 134–139):
for each index `i`, `giver = people[i]`, `receiver = people[perm[i]]`, and
the pushed row is `{token: giver.token, giver: giver.name, receiver_token:
receiver.token, receiver: receiver.name}`. -/
def buildRows (people : List Person) (perm : List Nat) : List Row :=
  (List.range people.length).map (fun i =>
    let giver := people.getD i defaultPerson
    let receiver := people.getD (perm.getD i 0) defaultPerson
    ⟨giver.token, giver.name, receiver.token, receiver.name⟩)

/-- The HTTP responses the `POST /api/assign` handler can produce:
400 `token required`, 404 `invalid token`, 200 `{assignee}`, and the
500 `internal error` of the catch block. -/
inductive AssignResult where
  | badRequest : AssignResult
  | notFound : AssignResult
  | ok : Option Person → AssignResult
  | serverError : AssignResult
  deriving DecidableEq, Repr

/-- The response body `{assignee}` (lines 143–145): the stored row for the
requesting token is looked up and its receiver resolved back to a
participant. -/
def respond (people : List Person) (row : Option Row) : AssignResult :=
  AssignResult.ok (match row with
    | some r => people.find? (fun p => p.token == r.receiver_token)
    | none => none)

/-- The `POST /api/assign` handler (lines 121–151) over the local-JSON
backend, with the persisted assignment store passed explicitly.  Returns
the response, the store after the request, and whether `derangement` was
invoked.  A missing `req.body.token` is modelled as the falsy `""`;
`tokenToIndex.get(token) === undefined` is the membership test on the
participants' tokens; a throw from `derangement` lands in the catch block
(line 149). -/
def postAssign (choices : Nat → Nat → Nat) (people : List Person)
    (store : List Row) (token : String) : AssignResult × List Row × Bool :=
  if token = "" then (AssignResult.badRequest, store, false)
  else if people.any (fun p => p.token == token) then
    match getByToken store token with
    | some _ => (respond people (getByToken store token), store, false)
    | none =>
      match derangement people.length choices with
      | Except.error _ => (AssignResult.serverError, store, true)
      | Except.ok perm =>
        let rows := buildRows people perm
        (respond people (getByToken rows token), rows, true)
  else (AssignResult.notFound, store, false)

/-- The two persistence locations: the local `assignments.json` document
and the Supabase `assignments` table. -/
structure StoreState where
  localFile : List Row
  db : List Row
  deriving DecidableEq, Repr

/-- `getAllAssignments` (lines 86–97): the Supabase backend reads the table
(ordered by giver, which is irrelevant to the properties proved below),
the local backend reads `assignments.json` (missing file ≡ `[]`). -/
def getAllAssignments (hasSupabase : Bool) (s : StoreState) : List Row :=
  if hasSupabase then s.db else s.localFile

/-- The `POST /admin/reset` handler (lines 177–196): it always rewrites the
local document to `[]` (line 180) and, when Supabase is configured, runs
`delete().neq('token', '')` (lines 184–187), which removes exactly the
rows whose giver token differs from the empty string. -/
def adminReset (hasSupabase : Bool) (s : StoreState) : StoreState :=
  ⟨[], if hasSupabase then s.db.filter (fun r => !(r.token != "")) else s.db⟩

/-- JavaScript truthiness test `!state.tokens[person.name]` (line 53): the
token is regenerated when it is absent or the empty string. -/
def falsyTok : Option String → Bool
  | none => true
  | some s => s == ""

/-- The token-filling loop of `loadColleaguesWithTokens` (lines 52–56).
`st` maps a name to its persisted token, `uuid` is the stream of values
`randomUUID()` produces, and `c` counts how many have been consumed. -/
def ensureTokensAux (uuid : Nat → String) :
    List String → (String → Option String) → Nat → (String → Option String) × Nat
  | [], st, c => (st, c)
  | name :: rest, st, c =>
    if falsyTok (st name) then
      ensureTokensAux uuid rest (fun n => if n = name then some (uuid c) else st n) (c + 1)
    else
      ensureTokensAux uuid rest st c

/-- `loadColleaguesWithTokens` (lines 47–59): fill in missing tokens,
persist the updated state, and return the colleagues tagged with their
tokens (`list.map(p => ({...p, token: state.tokens[p.name]}))`). -/
def loadColleaguesWithTokens (uuid : Nat → String) (list : List Colleague)
    (st : String → Option String) (c : Nat) :
    List Person × (String → Option String) × Nat :=
  let res := ensureTokensAux uuid (list.map Colleague.name) st c
  (list.map (fun q => ⟨q.name, q.birthday, q.anniversary, (res.1 q.name).getD ""⟩),
    res.1, res.2)

/-- An abstract model of `randomUUID()`: the drawn values are pairwise
distinct and never empty. -/
def UuidOk (uuid : Nat → String) : Prop :=
  Function.Injective uuid ∧ ∀ k, uuid k ≠ ""

/-- Token-registry states reachable by the program: every stored token came
from an already-consumed `randomUUID()` draw, and no token is stored under
two distinct names. -/
def GoodState (uuid : Nat → String) (st : String → Option String) (c : Nat) : Prop :=
  (∀ n t, st n = some t → ∃ k, k < c ∧ t = uuid k) ∧
  (∀ n₁ n₂ t, st n₁ = some t → st n₂ = some t → n₁ = n₂)

/-- Invariant of the shuffled array: its contents are injective and indices
at or beyond `n` are untouched. -/
def ArrOk (n : Nat) (arr : Nat → Nat) : Prop :=
  Function.Injective arr ∧ ∀ x, n ≤ x → arr x = x

example : derangement 2 (fun _ _ => 0) = Except.ok [1, 0] := rfl

example : derangement 0 (fun _ _ => 5) = Except.ok [] := rfl

/-! ### Lemmas about the Fisher–Yates shuffle -/

lemma swapFun_comp (arr : Nat → Nat) (i j : Nat) :
    swapFun arr i j = fun k => arr (Equiv.swap i j k) := by
  funext k
  simp only [swapFun, Equiv.swap_apply_def]
  by_cases hki : k = i
  · by_cases hji : j = i <;> simp [hki, hji]
  · by_cases hkj : k = j
    · by_cases hji : j = i <;> simp [hki, hkj, hji]
    · simp [hki, hkj]

lemma swapFun_arrOk {n : Nat} {arr : Nat → Nat} (h : ArrOk n arr)
    {i j : Nat} (hi : i < n) (hj : j < n) : ArrOk n (swapFun arr i j) := by
  constructor
  · rw [swapFun_comp]
    exact h.1.comp (Equiv.swap i j).injective
  · intro x hx
    have hxi : x ≠ i := by omega
    have hxj : x ≠ j := by omega
    simp only [swapFun, if_neg hxi, if_neg hxj]
    exact h.2 x hx

lemma fyPass_arrOk {n : Nat} {choice : Nat → Nat} (hc : ∀ i, choice i ≤ i) :
    ∀ (m : Nat) (arr : Nat → Nat), m < n → ArrOk n arr → ArrOk n (fyPass choice arr m)
  | 0, arr, _, h => h
  | m + 1, arr, hm, h => by
    have hj : choice (m + 1) < n := lt_of_le_of_lt (hc (m + 1)) hm
    exact fyPass_arrOk hc m (swapFun arr (m + 1) (choice (m + 1)))
      (Nat.lt_of_succ_lt hm) (swapFun_arrOk h hm hj)

lemma fyPass_pred_arrOk {n : Nat} {choice : Nat → Nat} {arr : Nat → Nat}
    (hc : ∀ i, choice i ≤ i) (h : ArrOk n arr) : ArrOk n (fyPass choice arr (n - 1)) := by
  cases n with
  | zero => exact h
  | succ k => exact fyPass_arrOk hc k arr (Nat.lt_succ_self k) h

lemma arrOk_lt {n : Nat} {arr : Nat → Nat} (h : ArrOk n arr) {i : Nat} (hi : i < n) :
    arr i < n := by
  by_contra hge
  have h1 : arr (arr i) = arr i := h.2 (arr i) (Nat.le_of_not_lt hge)
  have h2 : arr i = i := h.1 h1
  omega

lemma arrOk_perm {n : Nat} {arr : Nat → Nat} (h : ArrOk n arr) :
    ((List.range n).map arr).Perm (List.range n) := by
  have hnd : ((List.range n).map arr).Nodup := (List.nodup_range n).map h.1
  rw [List.perm_ext_iff_of_nodup hnd (List.nodup_range n)]
  intro a
  constructor
  · intro ha
    rcases List.mem_map.1 ha with ⟨i, hi, rfl⟩
    exact List.mem_range.2 (arrOk_lt h (List.mem_range.1 hi))
  · intro ha
    have ha' : a < n := List.mem_range.1 ha
    have hg : Function.Injective (fun i : Fin n => (⟨arr i, arrOk_lt h i.2⟩ : Fin n)) := by
      intro i₁ i₂ hi
      exact Fin.ext (h.1 (congrArg Fin.val hi))
    have hs := Finite.injective_iff_surjective.1 hg ⟨a, ha'⟩
    rcases hs with ⟨i, hi⟩
    refine List.mem_map.2 ⟨i.1, List.mem_range.2 i.2, ?_⟩
    exact congrArg Fin.val hi

lemma all_ne_iff (n : Nat) (arr : Nat → Nat) :
    ((List.range n).all fun i => arr i != i) = true ↔ ∀ i, i < n → arr i ≠ i := by
  simp only [List.all_eq_true, List.mem_range, bne_iff_ne]

lemma derangementLoop_ok_valid {n : Nat} :
    ∀ (fuel : Nat) (arr : Nat → Nat) (choices : Nat → Nat → Nat) (l : List Nat),
      ValidChoices choices → ArrOk n arr →
      derangementLoop n arr choices fuel = Except.ok l →
      l.Perm (List.range n) ∧ l.length = n ∧
        ∀ i, (h : i < l.length) → l.get ⟨i, h⟩ ≠ i
  | 0, arr, choices, l, _, _, h => Except.noConfusion h
  | fuel + 1, arr, choices, l, hv, hok, h => by
    simp only [derangementLoop] at h
    set arr2 := fyPass (choices 0) arr (n - 1) with harr2
    have hok2 : ArrOk n arr2 := fyPass_pred_arrOk (fun i => hv 0 i) hok
    by_cases hc : ((List.range n).all fun i => arr2 i != i) = true
    · rw [if_pos hc] at h
      have hl : l = (List.range n).map arr2 := by
        injection h with h'
        exact h'.symm
      subst hl
      refine ⟨arrOk_perm hok2, by simp, ?_⟩
      intro i hi
      have hi' : i < n := by simpa using hi
      have : ((List.range n).map arr2).get ⟨i, hi⟩ = arr2 i := by
        simp [List.get_map]
      rw [this]
      exact (all_ne_iff n arr2).1 hc i hi'
    · rw [if_neg hc] at h
      exact derangementLoop_ok_valid fuel arr2 (fun t => choices (t + 1)) l
        (fun t i => hv (t + 1) i) hok2 h

lemma arrOk_id (n : Nat) : ArrOk n (fun i => i) :=
  ⟨fun _ _ h => h, fun _ _ => rfl⟩

lemma derangement_ok_valid {n : Nat} {choices : Nat → Nat → Nat} {l : List Nat}
    (hv : ValidChoices choices) (h : derangement n choices = Except.ok l) :
    l.Perm (List.range n) ∧ l.length = n ∧
      ∀ i, (hi : i < l.length) → l.get ⟨i, hi⟩ ≠ i :=
  derangementLoop_ok_valid 2000 (fun i => i) choices l hv (arrOk_id n) h

lemma derangementLoop_ok_or_error (n : Nat) :
    ∀ (fuel : Nat) (arr : Nat → Nat) (choices : Nat → Nat → Nat),
      (∃ l, derangementLoop n arr choices fuel = Except.ok l) ∨
        derangementLoop n arr choices fuel = Except.error "Failed to create derangement"
  | 0, arr, choices => Or.inr rfl
  | fuel + 1, arr, choices => by
    simp only [derangementLoop]
    set arr2 := fyPass (choices 0) arr (n - 1) with harr2
    by_cases hc : ((List.range n).all fun i => arr2 i != i) = true
    · rw [if_pos hc]
      exact Or.inl ⟨(List.range n).map arr2, rfl⟩
    · rw [if_neg hc]
      exact derangementLoop_ok_or_error n fuel arr2 (fun t => choices (t + 1))

lemma derangementLoop_congr (n : Nat) :
    ∀ (fuel : Nat) (arr : Nat → Nat) (choices choices' : Nat → Nat → Nat),
      (∀ t, t < fuel → choices t = choices' t) →
      derangementLoop n arr choices fuel = derangementLoop n arr choices' fuel
  | 0, arr, choices, choices', _ => rfl
  | fuel + 1, arr, choices, choices', hagree => by
    simp only [derangementLoop]
    rw [hagree 0 (Nat.succ_pos fuel)]
    set arr2 := fyPass (choices' 0) arr (n - 1) with harr2
    by_cases hc : ((List.range n).all fun i => arr2 i != i) = true
    · rw [if_pos hc, if_pos hc]
    · rw [if_neg hc, if_neg hc]
      exact derangementLoop_congr n fuel arr2 (fun t => choices (t + 1))
        (fun t => choices' (t + 1)) (fun t ht => hagree (t + 1) (Nat.succ_lt_succ ht))

lemma fyPass_id_choice {choice : Nat → Nat} (hc : ∀ i, choice i = i) :
    ∀ (m : Nat) (arr : Nat → Nat), fyPass choice arr m = arr
  | 0, arr => rfl
  | m + 1, arr => by
    have hswap : swapFun arr (m + 1) (choice (m + 1)) = arr := by
      funext k
      simp only [swapFun, hc (m + 1)]
      by_cases hk : k = m + 1 <;> simp [hk]
    simp only [fyPass, hswap]
    exact fyPass_id_choice hc m arr

lemma derangementLoop_fixed_point {n : Nat} :
    ∀ (fuel : Nat) (arr : Nat → Nat) (choices : Nat → Nat → Nat),
      (∀ t i, choices t i = i) → (∃ i, i < n ∧ arr i = i) →
      derangementLoop n arr choices fuel = Except.error "Failed to create derangement"
  | 0, arr, choices, _, _ => rfl
  | fuel + 1, arr, choices, hid, hfix => by
    simp only [derangementLoop]
    rw [fyPass_id_choice (hid 0) (n - 1) arr]
    have hc : ((List.range n).all fun i => arr i != i) = false := by
      rcases hfix with ⟨i, hi, hfi⟩
      have hnot : ¬ ∀ j, j < n → arr j ≠ j := fun hall => hall i hi hfi
      rcases Bool.eq_false_or_eq_true ((List.range n).all fun i => arr i != i) with hb | hb
      · exact absurd ((all_ne_iff n arr).1 hb) hnot
      · exact hb
    rw [if_neg (by simp [hc])]
    exact derangementLoop_fixed_point fuel arr (fun t => choices (t + 1))
      (fun t i => hid (t + 1) i) hfix

lemma derangementLoop_one :
    ∀ (fuel : Nat) (arr : Nat → Nat) (choices : Nat → Nat → Nat), arr 0 = 0 →
      derangementLoop 1 arr choices fuel = Except.error "Failed to create derangement"
  | 0, arr, choices, _ => rfl
  | fuel + 1, arr, choices, h0 => by
    simp only [derangementLoop]
    have hpass : fyPass (choices 0) arr (1 - 1) = arr := rfl
    rw [hpass]
    have hc : ((List.range 1).all fun i => arr i != i) = false := by
      simp [List.range_succ, h0]
    rw [if_neg (by simp [hc])]
    exact derangementLoop_one fuel arr (fun t => choices (t + 1)) h0

lemma derangement_one (choices : Nat → Nat → Nat) :
    derangement 1 choices = Except.error "Failed to create derangement" :=
  derangementLoop_one 2000 (fun i => i) choices rfl

/-! ### Lemmas about the assignment rows and the assign handler -/

lemma buildRows_length (people : List Person) (perm : List Nat) :
    (buildRows people perm).length = people.length := by
  simp [buildRows]

lemma buildRows_get (people : List Person) (perm : List Nat) (i : Nat)
    (h : i < (buildRows people perm).length) :
    (buildRows people perm).get ⟨i, h⟩ =
      ⟨(people.getD i defaultPerson).token, (people.getD i defaultPerson).name,
        (people.getD (perm.getD i 0) defaultPerson).token,
        (people.getD (perm.getD i 0) defaultPerson).name⟩ := by
  simp [buildRows, List.get_map, List.get_range]

lemma buildRows_mem {people : List Person} {perm : List Nat} {r : Row}
    (hr : r ∈ buildRows people perm) :
    ∃ i, ∃ hi : i < people.length,
      r = ⟨(people.get ⟨i, hi⟩).token, (people.get ⟨i, hi⟩).name,
        (people.getD (perm.getD i 0) defaultPerson).token,
        (people.getD (perm.getD i 0) defaultPerson).name⟩ := by
  rcases List.mem_iff_get.1 hr with ⟨⟨i, hlen⟩, hget⟩
  have hi : i < people.length := by
    have := hlen
    rwa [buildRows_length] at this
  refine ⟨i, hi, ?_⟩
  rw [← hget, buildRows_get]
  rw [List.getD_eq_get _ _ hi]

lemma getByToken_buildRows_isSome {people : List Person} {t : String}
    (hvalid : (people.any fun p => p.token == t) = true) (perm : List Nat) :
    ∃ r, getByToken (buildRows people perm) t = some r := by
  rcases List.any_eq_true.1 hvalid with ⟨p, hp, hpt⟩
  rcases List.mem_iff_get.1 hp with ⟨⟨i, hi⟩, hget⟩
  have hib : i < (buildRows people perm).length := by
    rw [buildRows_length]; exact hi
  have htok : (((buildRows people perm).get ⟨i, hib⟩).token == t) = true := by
    rw [buildRows_get people perm i hib]
    show ((people.getD i defaultPerson).token == t) = true
    rw [List.getD_eq_get _ _ hi, hget]
    exact hpt
  have hsome : ((buildRows people perm).find? fun r => r.token == t).isSome :=
    List.find?_isSome.2 ⟨_, List.get_mem _ _ _, htok⟩
  rcases Option.isSome_iff_exists.1 hsome with ⟨r, hr⟩
  exact ⟨r, hr⟩

lemma perm_entry_lt {people : List Person} {perm : List Nat}
    (hperm : perm.Perm (List.range people.length)) {i : Nat} (hi : i < perm.length) :
    perm.getD i 0 < people.length := by
  have hmem : perm.get ⟨i, hi⟩ ∈ perm := List.get_mem _ _ _
  have hmem2 : perm.get ⟨i, hi⟩ ∈ List.range people.length := hperm.mem_iff.1 hmem
  rw [List.getD_eq_get _ _ hi]
  exact List.mem_range.1 hmem2

lemma respond_isSome {people : List Person} {perm : List Nat} {t : String} {r : Row}
    (hperm : perm.Perm (List.range people.length)) (hlen : perm.length = people.length)
    (hr : getByToken (buildRows people perm) t = some r) :
    ∃ p, (people.find? fun q => q.token == r.receiver_token) = some p := by
  have hrm : r ∈ buildRows people perm := List.mem_of_find?_eq_some hr
  rcases buildRows_mem hrm with ⟨i, hi, hreq⟩
  have hip : i < perm.length := by rw [hlen]; exact hi
  have hj : perm.getD i 0 < people.length := perm_entry_lt hperm hip
  have hrt : r.receiver_token = (people.get ⟨perm.getD i 0, hj⟩).token := by
    rw [hreq]
    show (people.getD (perm.getD i 0) defaultPerson).token = _
    rw [List.getD_eq_get _ _ hj]
  have hsome : (people.find? fun q => q.token == r.receiver_token).isSome := by
    refine List.find?_isSome.2 ⟨people.get ⟨perm.getD i 0, hj⟩, List.get_mem _ _ _, ?_⟩
    rw [hrt]
    exact beq_self_eq_true _
  rcases Option.isSome_iff_exists.1 hsome with ⟨p, hp⟩
  exact ⟨p, hp⟩

lemma postAssign_generating {choices : Nat → Nat → Nat} {people : List Person}
    {store : List Row} {t : String} {perm : List Nat}
    (hne : t ≠ "") (hvalid : (people.any fun p => p.token == t) = true)
    (hnone : getByToken store t = none)
    (hd : derangement people.length choices = Except.ok perm) :
    postAssign choices people store t =
      (respond people (getByToken (buildRows people perm) t), buildRows people perm, true) := by
  unfold postAssign
  rw [if_neg hne, if_pos hvalid, hnone, hd]

lemma postAssign_existing {choices : Nat → Nat → Nat} {people : List Person}
    {store : List Row} {t : String} {r : Row}
    (hne : t ≠ "") (hvalid : (people.any fun p => p.token == t) = true)
    (hsome : getByToken store t = some r) :
    postAssign choices people store t =
      (respond people (getByToken store t), store, false) := by
  unfold postAssign
  rw [if_neg hne, if_pos hvalid, hsome]

lemma postAssign_no_generation {choices : Nat → Nat → Nat} {people : List Person}
    {store : List Row} (t : String)
    (hcover : ∀ t', t' ≠ "" → (people.any fun p => p.token == t') = true →
      ∃ r, getByToken store t' = some r) :
    (postAssign choices people store t).2 = (store, false) := by
  unfold postAssign
  by_cases ht : t = ""
  · rw [if_pos ht]
  · rw [if_neg ht]
    by_cases hv : (people.any fun p => p.token == t) = true
    · rw [if_pos hv]
      rcases hcover t ht hv with ⟨r, hr⟩
      rw [hr]
    · rw [if_neg hv]

lemma postAssign_size_one (choices : Nat → Nat → Nat) (p : Person) (store : List Row)
    (hne : p.token ≠ "") (hnone : getByToken store p.token = none) :
    postAssign choices [p] store p.token = (AssignResult.serverError, store, true) := by
  unfold postAssign
  have hany : ([p].any fun q => q.token == p.token) = true := by simp
  rw [if_neg hne, if_pos hany, hnone]
  have hlen : ([p] : List Person).length = 1 := rfl
  rw [hlen, derangement_one]

lemma postAssign_empty (choices : Nat → Nat → Nat) (store : List Row) (t : String) :
    (postAssign choices [] store t).2.2 = false ∧
      (postAssign choices [] store t).2.1 = store ∧
      ((postAssign choices [] store t).1 = AssignResult.badRequest ∨
        (postAssign choices [] store t).1 = AssignResult.notFound) := by
  unfold postAssign
  by_cases ht : t = ""
  · rw [if_pos ht]
    exact ⟨rfl, rfl, Or.inl rfl⟩
  · rw [if_neg ht]
    have hany : (([] : List Person).any fun p => p.token == t) = false := rfl
    rw [if_neg (by simp [hany])]
    exact ⟨rfl, rfl, Or.inr rfl⟩

/-! ### Lemmas for the assignment-set bijection (claim C3) -/

lemma buildRows_map_token (people : List Person) (perm : List Nat) :
    (buildRows people perm).map Row.token = people.map Person.token := by
  refine List.ext_get (by simp [buildRows]) ?_
  intro i h1 h2
  have hi : i < people.length := by simpa using h2
  have hib : i < (buildRows people perm).length := by
    rw [buildRows_length]; exact hi
  rw [List.get_map, List.get_map, buildRows_get]
  show (people.getD i defaultPerson).token = _
  rw [List.getD_eq_get _ _ hi]

lemma buildRows_map_receiver (people : List Person) (perm : List Nat)
    (hlen : perm.length = people.length) :
    (buildRows people perm).map Row.receiver_token =
      perm.map (fun j => (people.getD j defaultPerson).token) := by
  refine List.ext_get (by simp [buildRows, hlen]) ?_
  intro i h1 h2
  have hip : i < perm.length := by simpa using h2
  rw [List.get_map, List.get_map, buildRows_get]
  show (people.getD (perm.getD i 0) defaultPerson).token = _
  rw [List.getD_eq_get _ _ hip]

lemma range_map_getD_token (people : List Person) :
    (List.range people.length).map (fun j => (people.getD j defaultPerson).token) =
      people.map Person.token := by
  refine List.ext_get (by simp) ?_
  intro i h1 h2
  have hi : i < people.length := by simpa using h2
  rw [List.get_map, List.get_map, List.get_range]
  rw [List.getD_eq_get _ _ hi]

lemma buildRows_receiver_perm (people : List Person) {perm : List Nat}
    (hperm : perm.Perm (List.range people.length)) (hlen : perm.length = people.length) :
    ((buildRows people perm).map Row.receiver_token).Perm (people.map Person.token) := by
  rw [buildRows_map_receiver people perm hlen]
  have h1 := hperm.map (fun j => (people.getD j defaultPerson).token)
  rw [range_map_getD_token people] at h1
  exact h1

lemma buildRows_no_self {people : List Person} {perm : List Nat}
    (htok : (people.map Person.token).Nodup)
    (hperm : perm.Perm (List.range people.length)) (hlen : perm.length = people.length)
    (hfix : ∀ i, (hi : i < perm.length) → perm.get ⟨i, hi⟩ ≠ i) :
    ∀ r ∈ buildRows people perm, r.token ≠ r.receiver_token := by
  intro r hr
  rcases buildRows_mem hr with ⟨i, hi, hreq⟩
  have hip : i < perm.length := by rw [hlen]; exact hi
  have hj : perm.getD i 0 < people.length := perm_entry_lt hperm hip
  have hne : perm.getD i 0 ≠ i := by
    rw [List.getD_eq_get _ _ hip]; exact hfix i hip
  subst hreq
  show (people.get ⟨i, hi⟩).token ≠ (people.getD (perm.getD i 0) defaultPerson).token
  rw [List.getD_eq_get _ _ hj]
  intro heq
  have him : i < (people.map Person.token).length := by simpa using hi
  have hjm : perm.getD i 0 < (people.map Person.token).length := by simpa using hj
  have h1 : (people.map Person.token).get ⟨i, him⟩ =
      (people.map Person.token).get ⟨perm.getD i 0, hjm⟩ := by
    rw [List.get_map, List.get_map]
    exact heq
  have h2 := (List.Nodup.get_inj_iff htok).1 h1
  have h3 : i = perm.getD i 0 := congrArg Fin.val h2
  exact hne h3.symm

/-! ### Lemmas for the token registry (claim C8) -/

lemma falsyTok_some_ne {t : String} (h : t ≠ "") : falsyTok (some t) = false := by
  simp [falsyTok, h]

lemma ensureTokensAux_stable (uuid : Nat → String) :
    ∀ (names : List String) (st : String → Option String) (c : Nat) (n t : String),
      st n = some t → t ≠ "" → (ensureTokensAux uuid names st c).1 n = some t
  | [], st, c, n, t, h, _ => h
  | name :: rest, st, c, n, t, h, hne => by
    simp only [ensureTokensAux]
    by_cases hf : falsyTok (st name) = true
    · rw [if_pos hf]
      refine ensureTokensAux_stable uuid rest _ _ n t ?_ hne
      have hn : n ≠ name := by
        intro he
        rw [he] at h
        rw [h, falsyTok_some_ne hne] at hf
        exact Bool.noConfusion hf
      simp only [if_neg hn]
      exact h
    · rw [if_neg hf]
      exact ensureTokensAux_stable uuid rest st c n t h hne

lemma ensureTokensAux_assigned (uuid : Nat → String) (hu : UuidOk uuid) :
    ∀ (names : List String) (st : String → Option String) (c : Nat),
      (∀ n t, st n = some t → t ≠ "") →
      ∀ name ∈ names, ∃ t, (ensureTokensAux uuid names st c).1 name = some t ∧ t ≠ ""
  | [], _, _, _, _, hmem => absurd hmem (List.not_mem_nil _)
  | nm :: rest, st, c, hinv, name, hmem => by
    simp only [ensureTokensAux]
    by_cases hf : falsyTok (st nm) = true
    · rw [if_pos hf]
      have hinv' : ∀ n t, (fun m => if m = nm then some (uuid c) else st m) n = some t →
          t ≠ "" := by
        intro n t h
        by_cases hn : n = nm
        · simp only [if_pos hn] at h
          injection h with h'
          rw [← h']
          exact hu.2 c
        · simp only [if_neg hn] at h
          exact hinv n t h
      rcases List.mem_cons.1 hmem with he | hrest
      · refine ⟨uuid c, ?_, hu.2 c⟩
        refine ensureTokensAux_stable uuid rest _ _ name (uuid c) ?_ (hu.2 c)
        simp [he]
      · exact ensureTokensAux_assigned uuid hu rest _ (c + 1) hinv' name hrest
    · rw [if_neg hf]
      rcases List.mem_cons.1 hmem with he | hrest
      · rcases hst : st nm with _ | t
        · rw [hst] at hf
          exact absurd rfl hf
        · have hne : t ≠ "" := hinv nm t hst
          refine ⟨t, ?_, hne⟩
          rw [he]
          exact ensureTokensAux_stable uuid rest st c nm t hst hne
      · exact ensureTokensAux_assigned uuid hu rest st c hinv name hrest

lemma ensureTokensAux_good (uuid : Nat → String) (hu : UuidOk uuid) :
    ∀ (names : List String) (st : String → Option String) (c : Nat),
      GoodState uuid st c →
      GoodState uuid (ensureTokensAux uuid names st c).1 (ensureTokensAux uuid names st c).2
  | [], _, _, hg => hg
  | nm :: rest, st, c, hg => by
    simp only [ensureTokensAux]
    by_cases hf : falsyTok (st nm) = true
    · rw [if_pos hf]
      refine ensureTokensAux_good uuid hu rest _ (c + 1) ⟨?_, ?_⟩
      · intro n t h
        by_cases hn : n = nm
        · simp only [if_pos hn] at h
          injection h with h'
          exact ⟨c, Nat.lt_succ_self c, h'.symm⟩
        · simp only [if_neg hn] at h
          rcases hg.1 n t h with ⟨k, hk, ht⟩
          exact ⟨k, Nat.lt_succ_of_lt hk, ht⟩
      · intro n₁ n₂ t h1 h2
        by_cases hn1 : n₁ = nm <;> by_cases hn2 : n₂ = nm
        · rw [hn1, hn2]
        · simp only [if_pos hn1] at h1
          simp only [if_neg hn2] at h2
          injection h1 with h1'
          rcases hg.1 n₂ t h2 with ⟨k, hk, ht⟩
          have hck : c = k := hu.1 (by rw [h1', ht])
          omega
        · simp only [if_neg hn1] at h1
          simp only [if_pos hn2] at h2
          injection h2 with h2'
          rcases hg.1 n₁ t h1 with ⟨k, hk, ht⟩
          have hck : c = k := hu.1 (by rw [h2', ht])
          omega
        · simp only [if_neg hn1] at h1
          simp only [if_neg hn2] at h2
          exact hg.2 n₁ n₂ t h1 h2
    · rw [if_neg hf]
      exact ensureTokensAux_good uuid hu rest st c hg

lemma goodState_nonempty {uuid : Nat → String} {st : String → Option String} {c : Nat}
    (hu : UuidOk uuid) (hg : GoodState uuid st c) :
    ∀ n t, st n = some t → t ≠ "" := by
  intro n t h
  rcases hg.1 n t h with ⟨k, _, ht⟩
  rw [ht]
  exact hu.2 k

/-! ### Claim theorems -/

/-- C1, counterexample: the claim quantifies over every behaviour of the
random source, but under the behaviour that always picks `j = i` (a swap
with itself) every shuffle leaves the array unchanged, so `derangement 2`
exhausts its 2000 attempts and throws instead of returning a permutation. -/
theorem claim1_counterexample :
    derangement 2 (fun _ i => i) = Except.error "Failed to create derangement" :=
  derangementLoop_fixed_point 2000 (fun i => i) (fun _ i => i) (fun _ _ => rfl)
    ⟨0, by omega, rfl⟩

/-- C1, amended: for every n ≥ 2 and every behaviour of the random source,
whenever `derangement(n)` returns a sequence (rather than throwing after
exhausting its attempts), that sequence is a permutation of `[0, n)` with
`perm[i] ≠ i` for every index `i`. -/
theorem claim1_derangement_returns_valid (n : Nat) (hn : 2 ≤ n) (choices : Nat → Nat → Nat)
    (hv : ValidChoices choices) (l : List Nat)
    (h : derangement n choices = Except.ok l) :
    l.Perm (List.range n) ∧ ∀ i, (hi : i < l.length) → l.get ⟨i, hi⟩ ≠ i :=
  ⟨(derangement_ok_valid hv h).1, (derangement_ok_valid hv h).2.2⟩

/-- C1, witness: `derangement 2` under the always-pick-0 behaviour returns
`[1, 0]`, which the theorem certifies to be a fixed-point-free permutation. -/
theorem claim1_witness :
    ([1, 0] : List Nat).Perm (List.range 2) ∧
      ∀ i, (hi : i < ([1, 0] : List Nat).length) → ([1, 0] : List Nat).get ⟨i, hi⟩ ≠ i :=
  claim1_derangement_returns_valid 2 (by decide) (fun _ _ => 0) (fun _ i => Nat.zero_le i) [1, 0] rfl

/-- C5: `derangement(1)` fails for every behaviour of the random source:
the single element always maps to itself, so all 2000 attempts fail and the
function throws `Failed to create derangement`, never returning a value. -/
theorem claim5_derangement_one_always_fails (choices : Nat → Nat → Nat) :
    derangement 1 choices = Except.error "Failed to create derangement" :=
  derangement_one choices

/-- C6: `derangement(n)` makes at most 2000 shuffle-and-check attempts (its
result depends only on the first 2000 trials of the random source) and, as
a total function, always terminates with either a valid derangement or the
explicit error `Failed to create derangement`; never a partial or invalid
result. -/
theorem claim6_bounded_attempts (n : Nat) (choices : Nat → Nat → Nat)
    (hv : ValidChoices choices) :
    (∀ choices', (∀ t, t < 2000 → choices t = choices' t) →
        derangement n choices = derangement n choices') ∧
      ((∃ l, derangement n choices = Except.ok l ∧ l.Perm (List.range n) ∧
          ∀ i, (hi : i < l.length) → l.get ⟨i, hi⟩ ≠ i) ∨
        derangement n choices = Except.error "Failed to create derangement") := by
  constructor
  · intro choices' hag
    exact derangementLoop_congr n 2000 (fun i => i) choices choices' hag
  · rcases derangementLoop_ok_or_error n 2000 (fun i => i) choices with ⟨l, hl⟩ | he
    · have hval := derangement_ok_valid hv hl
      exact Or.inl ⟨l, hl, hval.1, hval.2.2⟩
    · exact Or.inr he

/-- C6, witness: the attempt-bounded dichotomy evaluated at `n = 2` with the
always-pick-0 behaviour. -/
theorem claim6_witness :
    (∃ l, derangement 2 (fun _ _ => 0) = Except.ok l ∧ l.Perm (List.range 2) ∧
        ∀ i, (hi : i < l.length) → l.get ⟨i, hi⟩ ≠ i) ∨
      derangement 2 (fun _ _ => 0) = Except.error "Failed to create derangement" :=
  (claim6_bounded_attempts 2 (fun _ _ => 0) (fun _ i => Nat.zero_le i)).2

/-- C7: `derangement(0)` returns the empty sequence for every behaviour of
the random source, without raising an error: the shuffle loop body never
runs and the vacuous no-fixed-point check succeeds on the first attempt. -/
theorem claim7_derangement_zero_empty (choices : Nat → Nat → Nat) :
    derangement 0 choices = Except.ok [] := rfl

/-- C2: idempotence of the reveal flow.  For a fixed participant list,
when a request with a valid token finds no persisted assignment and its
derangement succeeds, the whole group's rows are persisted at once and the
request answers with some receiver; repeating the request with the same
token returns the identical receiver without invoking the generator, and
every subsequent request for any token (valid or not) leaves the store
unchanged and never regenerates — the assignment set is generated exactly
once per reset cycle. -/
theorem claim2_reveal_idempotent (choices : Nat → Nat → Nat) (people : List Person)
    (store : List Row) (t : String) (perm : List Nat)
    (hv : ValidChoices choices) (hne : t ≠ "")
    (hvalid : (people.any fun p => p.token == t) = true)
    (hnone : getByToken store t = none)
    (hd : derangement people.length choices = Except.ok perm) :
    ∃ p : Person,
      postAssign choices people store t =
        (AssignResult.ok (some p), buildRows people perm, true) ∧
      (∀ choices', postAssign choices' people (buildRows people perm) t =
        (AssignResult.ok (some p), buildRows people perm, false)) ∧
      (∀ choices' t', (postAssign choices' people (buildRows people perm) t').2 =
        (buildRows people perm, false)) := by
  have hval := derangement_ok_valid hv hd
  rcases getByToken_buildRows_isSome hvalid perm with ⟨r, hr⟩
  rcases respond_isSome hval.1 hval.2.1 hr with ⟨p, hp⟩
  have hresp : respond people (getByToken (buildRows people perm) t) =
      AssignResult.ok (some p) := by
    rw [hr]
    show AssignResult.ok (people.find? fun q => q.token == r.receiver_token) = _
    rw [hp]
  refine ⟨p, ?_, ?_, ?_⟩
  · rw [postAssign_generating hne hvalid hnone hd, hresp]
  · intro choices'
    rw [postAssign_existing hne hvalid hr, hresp]
  · intro choices' t'
    refine postAssign_no_generation t' ?_
    intro t2 _ hv2
    exact getByToken_buildRows_isSome hv2 perm

/-- C2, witness: a two-person group where the first reveal for token `a`
generates and persists the pair set and later requests only read it. -/
theorem claim2_witness :
    ∃ p : Person,
      postAssign (fun _ _ => 0) [⟨"Alice", "", "", "a"⟩, ⟨"Bob", "", "", "b"⟩] [] "a" =
        (AssignResult.ok (some p),
          buildRows [⟨"Alice", "", "", "a"⟩, ⟨"Bob", "", "", "b"⟩] [1, 0], true) ∧
      (∀ choices', postAssign choices' [⟨"Alice", "", "", "a"⟩, ⟨"Bob", "", "", "b"⟩]
          (buildRows [⟨"Alice", "", "", "a"⟩, ⟨"Bob", "", "", "b"⟩] [1, 0]) "a" =
        (AssignResult.ok (some p),
          buildRows [⟨"Alice", "", "", "a"⟩, ⟨"Bob", "", "", "b"⟩] [1, 0], false)) ∧
      (∀ choices' t', (postAssign choices' [⟨"Alice", "", "", "a"⟩, ⟨"Bob", "", "", "b"⟩]
          (buildRows [⟨"Alice", "", "", "a"⟩, ⟨"Bob", "", "", "b"⟩] [1, 0]) t').2 =
        (buildRows [⟨"Alice", "", "", "a"⟩, ⟨"Bob", "", "", "b"⟩] [1, 0], false)) :=
  claim2_reveal_idempotent (fun _ _ => 0) [⟨"Alice", "", "", "a"⟩, ⟨"Bob", "", "", "b"⟩]
    [] "a" [1, 0] (fun _ i => Nat.zero_le i) (by decide) (by decide) rfl rfl

/-- C3: for a participant list with pairwise-distinct tokens and a
successful derangement, the built assignment set has exactly one record per
participant, giver tokens in original order (hence each exactly once), the
receiver tokens a permutation of the participant tokens (hence each exactly
once), and no record assigns a giver to themselves. -/
theorem claim3_buildAssignments_bijection (choices : Nat → Nat → Nat)
    (people : List Person) (perm : List Nat)
    (hv : ValidChoices choices) (hk : 2 ≤ people.length)
    (htok : (people.map Person.token).Nodup)
    (hd : derangement people.length choices = Except.ok perm) :
    (buildRows people perm).length = people.length ∧
      (buildRows people perm).map Row.token = people.map Person.token ∧
      ((buildRows people perm).map Row.receiver_token).Perm (people.map Person.token) ∧
      (∀ t ∈ people.map Person.token,
        ((buildRows people perm).map Row.token).count t = 1 ∧
        ((buildRows people perm).map Row.receiver_token).count t = 1) ∧
      ∀ r ∈ buildRows people perm, r.token ≠ r.receiver_token := by
  have hval := derangement_ok_valid hv hd
  have hmapt := buildRows_map_token people perm
  have hrecp := buildRows_receiver_perm people hval.1 hval.2.1
  refine ⟨buildRows_length people perm, hmapt, hrecp, ?_,
    buildRows_no_self htok hval.1 hval.2.1 hval.2.2⟩
  intro t ht
  constructor
  · rw [hmapt]
    exact List.count_eq_one_of_mem htok ht
  · rw [hrecp.count_eq]
    exact List.count_eq_one_of_mem htok ht

/-- C3, witness: the bijection property evaluated on a concrete two-person
list with distinct tokens and the derangement `[1, 0]`. -/
theorem claim3_witness :
    (buildRows [⟨"Alice", "", "", "a"⟩, ⟨"Bob", "", "", "b"⟩] [1, 0]).length =
        ([⟨"Alice", "", "", "a"⟩, ⟨"Bob", "", "", "b"⟩] : List Person).length ∧
      (buildRows [⟨"Alice", "", "", "a"⟩, ⟨"Bob", "", "", "b"⟩] [1, 0]).map Row.token =
        ([⟨"Alice", "", "", "a"⟩, ⟨"Bob", "", "", "b"⟩] : List Person).map Person.token ∧
      ((buildRows [⟨"Alice", "", "", "a"⟩, ⟨"Bob", "", "", "b"⟩] [1, 0]).map
          Row.receiver_token).Perm
        (([⟨"Alice", "", "", "a"⟩, ⟨"Bob", "", "", "b"⟩] : List Person).map Person.token) ∧
      (∀ t ∈ ([⟨"Alice", "", "", "a"⟩, ⟨"Bob", "", "", "b"⟩] : List Person).map Person.token,
        ((buildRows [⟨"Alice", "", "", "a"⟩, ⟨"Bob", "", "", "b"⟩] [1, 0]).map
            Row.token).count t = 1 ∧
        ((buildRows [⟨"Alice", "", "", "a"⟩, ⟨"Bob", "", "", "b"⟩] [1, 0]).map
            Row.receiver_token).count t = 1) ∧
      ∀ r ∈ buildRows [⟨"Alice", "", "", "a"⟩, ⟨"Bob", "", "", "b"⟩] [1, 0],
        r.token ≠ r.receiver_token :=
  claim3_buildAssignments_bijection (fun _ _ => 0)
    [⟨"Alice", "", "", "a"⟩, ⟨"Bob", "", "", "b"⟩] [1, 0]
    (fun _ i => Nat.zero_le i) (by decide) (by decide) rfl

/-- C4, counterexample: for the group of size 1 the claim fails — a reveal
request bearing the single participant's valid token is not rejected by any
size validation; the derangement generator is invoked (the returned flag
records the invocation). -/
theorem claim4_counterexample :
    (postAssign (fun _ _ => 0) [⟨"Alice", "", "", "a"⟩] [] "a").2.2 = true := by
  have h := postAssign_size_one (fun _ _ => 0) ⟨"Alice", "", "", "a"⟩ [] (by decide) rfl
  rw [h]

/-- C4, amended: for a group of size 0 every reveal request is rejected
(missing or unknown token) before any generation attempt, so the generator
is never invoked; but for a group of size 1 a request with the
participant's valid token and no persisted assignment passes validation,
invokes the generator, and fails with a server error — there is no
group-size validation before generation. -/
theorem claim4_no_size_validation (choices : Nat → Nat → Nat) (store : List Row)
    (p : Person) (hne : p.token ≠ "") (hnone : getByToken store p.token = none) :
    (∀ t, (postAssign choices ([] : List Person) store t).2.2 = false ∧
        ((postAssign choices ([] : List Person) store t).1 = AssignResult.badRequest ∨
          (postAssign choices ([] : List Person) store t).1 = AssignResult.notFound)) ∧
      postAssign choices [p] store p.token = (AssignResult.serverError, store, true) :=
  ⟨fun t => ⟨(postAssign_empty choices store t).1, (postAssign_empty choices store t).2.2⟩,
    postAssign_size_one choices p store hne hnone⟩

/-- C4, witness: the amended statement evaluated for the empty group and a
concrete one-person group. -/
theorem claim4_witness :
    (∀ t, (postAssign (fun _ _ => 0) ([] : List Person) [] t).2.2 = false ∧
        ((postAssign (fun _ _ => 0) ([] : List Person) [] t).1 = AssignResult.badRequest ∨
          (postAssign (fun _ _ => 0) ([] : List Person) [] t).1 = AssignResult.notFound)) ∧
      postAssign (fun _ _ => 0) [⟨"Carol", "", "", "c"⟩] []
          (⟨"Carol", "", "", "c"⟩ : Person).token =
        (AssignResult.serverError, [], true) :=
  claim4_no_size_validation (fun _ _ => 0) [] ⟨"Carol", "", "", "c"⟩ (by decide) rfl

/-- C9: for a group of size 1, a reveal request with the participant's valid
token (and no previously persisted assignment) fails with the fatal
generation error surfaced as a server error, and the assignment store is
unchanged by the failed request — nothing is persisted. -/
theorem claim9_size_one_fatal (choices : Nat → Nat → Nat) (p : Person) (store : List Row)
    (hne : p.token ≠ "") (hnone : getByToken store p.token = none) :
    (postAssign choices [p] store p.token).1 = AssignResult.serverError ∧
      (postAssign choices [p] store p.token).2.1 = store := by
  rw [postAssign_size_one choices p store hne hnone]
  exact ⟨rfl, rfl⟩

/-- C9, witness: the size-1 failure evaluated on a concrete participant with
an empty store. -/
theorem claim9_witness :
    (postAssign (fun _ _ => 0) [⟨"Dave", "", "", "d"⟩] []
        (⟨"Dave", "", "", "d"⟩ : Person).token).1 = AssignResult.serverError ∧
      (postAssign (fun _ _ => 0) [⟨"Dave", "", "", "d"⟩] []
        (⟨"Dave", "", "", "d"⟩ : Person).token).2.1 = [] :=
  claim9_size_one_fatal (fun _ _ => 0) ⟨"Dave", "", "", "d"⟩ [] (by decide) rfl

/-- C8: token stability.  Starting from a reachable token state, loading the
participant list assigns every listed name a non-empty token; a second load
of the same list (with any further random draws) returns the same token for
every name; tokens of two distinct names are distinct; and a token already
assigned to any name never changes on a later load. -/
theorem claim8_token_stability (uuid uuid2 : Nat → String) (list : List Colleague)
    (st st1 st2 : String → Option String) (c c1 c2 : Nat) (ps1 ps2 : List Person)
    (hu : UuidOk uuid) (hg : GoodState uuid st c)
    (hL1 : loadColleaguesWithTokens uuid list st c = (ps1, st1, c1))
    (hL2 : loadColleaguesWithTokens uuid2 list st1 c1 = (ps2, st2, c2)) :
    (∀ q ∈ list, ∃ t, t ≠ "" ∧ st1 q.name = some t ∧
      (⟨q.name, q.birthday, q.anniversary, t⟩ : Person) ∈ ps1 ∧
      st2 q.name = some t ∧
      (⟨q.name, q.birthday, q.anniversary, t⟩ : Person) ∈ ps2) ∧
    (∀ q₁ ∈ list, ∀ q₂ ∈ list, ∀ t₁ t₂, st1 q₁.name = some t₁ →
      st1 q₂.name = some t₂ → q₁.name ≠ q₂.name → t₁ ≠ t₂) ∧
    (∀ n t, st n = some t → t ≠ "" → st1 n = some t ∧ st2 n = some t) := by
  simp only [loadColleaguesWithTokens, Prod.mk.injEq] at hL1 hL2
  obtain ⟨hps1, hst1, hc1⟩ := hL1
  subst hps1
  subst hst1
  subst hc1
  obtain ⟨hps2, hst2, hc2⟩ := hL2
  subst hps2
  subst hst2
  subst hc2
  have hg1 := ensureTokensAux_good uuid hu (list.map Colleague.name) st c hg
  refine ⟨?_, ?_, ?_⟩
  · intro q hq
    have hmem : q.name ∈ list.map Colleague.name := List.mem_map_of_mem _ hq
    rcases ensureTokensAux_assigned uuid hu (list.map Colleague.name) st c
      (goodState_nonempty hu hg) q.name hmem with ⟨t, hs1, hne⟩
    have hs2 := ensureTokensAux_stable uuid2 (list.map Colleague.name)
      (ensureTokensAux uuid (list.map Colleague.name) st c).1
      (ensureTokensAux uuid (list.map Colleague.name) st c).2 q.name t hs1 hne
    refine ⟨t, hne, hs1, ?_, hs2, ?_⟩
    · exact List.mem_map.2 ⟨q, hq, by simp [hs1]⟩
    · exact List.mem_map.2 ⟨q, hq, by simp [hs2]⟩
  · intro q₁ _ q₂ _ t₁ t₂ hq1 hq2 hnames heq
    rw [heq] at hq1
    exact hnames (hg1.2 q₁.name q₂.name t₂ hq1 hq2)
  · intro n t h hne
    have hs1 := ensureTokensAux_stable uuid (list.map Colleague.name) st c n t h hne
    exact ⟨hs1, ensureTokensAux_stable uuid2 (list.map Colleague.name)
      (ensureTokensAux uuid (list.map Colleague.name) st c).1
      (ensureTokensAux uuid (list.map Colleague.name) st c).2 n t hs1 hne⟩

/-- C8, witness: a concrete two-name load from the empty token state with an
injective, non-empty stream of fresh draws assigns a stable token. -/
theorem claim8_witness :
    ∃ t, t ≠ "" ∧
      (loadColleaguesWithTokens (fun k => String.mk (List.replicate (k + 1) 'a'))
        [⟨"A", "", ""⟩, ⟨"B", "", ""⟩] (fun _ => none) 0).2.1 "A" = some t := by
  have hu : UuidOk (fun k => String.mk (List.replicate (k + 1) 'a')) := by
    constructor
    · intro k1 k2 h
      have h2 := congrArg (fun s => s.data.length) h
      simpa using h2
    · intro k h
      have h2 := congrArg (fun s => s.data.length) h
      simpa using h2
  have h := claim8_token_stability (fun k => String.mk (List.replicate (k + 1) 'a'))
    (fun k => String.mk (List.replicate (k + 1) 'a'))
    [⟨"A", "", ""⟩, ⟨"B", "", ""⟩] (fun _ => none) _ _ 0 _ _ _ _
    hu
    ⟨fun n t ht => Option.noConfusion ht, fun n₁ n₂ t h₁ _ => Option.noConfusion h₁⟩
    rfl rfl
  rcases h.1 ⟨"A", "", ""⟩ (by simp) with ⟨t, hne, hst1, _⟩
  exact ⟨t, hne, hst1⟩

/-- C10, counterexample: the claim quantifies over every prior store
contents, but in the Supabase backend `delete().neq('token', '')` keeps any
row whose giver token is the empty string, so after a reset on such a store
the listing is non-empty and the empty token still finds an assignment. -/
theorem claim10_counterexample :
    getAllAssignments true (adminReset true ⟨[], [⟨"", "Grinch", "x", "Max"⟩]⟩) =
        [⟨"", "Grinch", "x", "Max"⟩] ∧
      getByToken
        (getAllAssignments true (adminReset true ⟨[], [⟨"", "Grinch", "x", "Max"⟩]⟩)) "" =
        some ⟨"", "Grinch", "x", "Max"⟩ :=
  ⟨rfl, rfl⟩

/-- C10, amended: for every prior store whose rows all carry a non-empty
giver token — which is every store the application itself writes, since
tokens are UUIDs — a reset empties the effective assignment store, lookup
by any token finds nothing, and the next reveal request with a valid token
triggers a fresh derangement. -/
theorem claim10_reset_clears (hasSupabase : Bool) (s : StoreState)
    (hdb : ∀ r ∈ s.db, r.token ≠ "") :
    getAllAssignments hasSupabase (adminReset hasSupabase s) = [] ∧
      (∀ t, getByToken (getAllAssignments hasSupabase (adminReset hasSupabase s)) t = none) ∧
      (∀ choices people t, t ≠ "" → (people.any fun p => p.token == t) = true →
        (postAssign choices people
          (getAllAssignments hasSupabase (adminReset hasSupabase s)) t).2.2 = true) := by
  have hempty : getAllAssignments hasSupabase (adminReset hasSupabase s) = [] := by
    cases hasSupabase
    · rfl
    · show List.filter _ s.db = []
      rw [List.filter_eq_nil_iff]
      intro r hr
      simp [hdb r hr]
  refine ⟨hempty, ?_, ?_⟩
  · intro t
    rw [hempty]
    rfl
  · intro choices people t hne hvalid
    rw [hempty]
    unfold postAssign
    rw [if_neg hne, if_pos hvalid]
    have hnone : getByToken ([] : List Row) t = none := rfl
    rw [hnone]
    cases hd : derangement people.length choices with
    | error e => rfl
    | ok perm => rfl

/-- C10, witness: the amended reset property evaluated on a concrete
Supabase-backed store holding one application-written row. -/
theorem claim10_witness :
    getAllAssignments true
        (adminReset true ⟨[⟨"t1", "A", "t2", "B"⟩], [⟨"t1", "A", "t2", "B"⟩]⟩) = [] ∧
      (∀ t, getByToken (getAllAssignments true
        (adminReset true ⟨[⟨"t1", "A", "t2", "B"⟩], [⟨"t1", "A", "t2", "B"⟩]⟩)) t = none) ∧
      (∀ choices people t, t ≠ "" → (people.any fun p => p.token == t) = true →
        (postAssign choices people
          (getAllAssignments true
            (adminReset true ⟨[⟨"t1", "A", "t2", "B"⟩], [⟨"t1", "A", "t2", "B"⟩]⟩)) t).2.2 =
          true) :=
  claim10_reset_clears true ⟨[⟨"t1", "A", "t2", "B"⟩], [⟨"t1", "A", "t2", "B"⟩]⟩ (by decide)

end BuddyApp
